import Mathlib

set_option maxRecDepth 100000

/-!
Shallow embedding of the grid-based homepass partitioner in src/app.py.

Coordinates are modelled as exact rationals (the source works on planar UTM
coordinates as Python floats; all the partitioning logic is comparisons and
additions, which we reproduce exactly over the rationals).  Geometry library
calls (shapely) are modelled by their documented point-set semantics:
a polygon `contains` / a point is `within` a polygon iff the point lies in the
polygon's interior.
-/

/-- A planar point (a homepass), after projection to the planar CRS. -/
structure Pt where
  x : ℚ
  y : ℚ
deriving DecidableEq, Repr

/-- One grid cell of the aligned grid: its pandas index `idx`, its lower-left
corner `(x0, y0)` (the square extends by `gridSize` in both directions), the
stored `row` / `col` labels, and its `homepass` count column. -/
structure Cell where
  idx : ℕ
  x0 : ℚ
  y0 : ℚ
  row : ℤ
  col : ℤ
  homepass : ℕ
deriving DecidableEq, Repr

/-- The fixed cell size used throughout app.py: 15.8. -/
def gridSize : ℚ := 79 / 5

/-- Python's round-half-to-even (banker's rounding), as used by
`int(round(...))` in create_aligned_grids (the value is already integral after
`round`, so `int` merely converts). -/
def pyRound (q : ℚ) : ℤ :=
  let f : ℤ := ⌊q⌋
  let r : ℚ := q - (f : ℚ)
  if r < 1/2 then f
  else if 1/2 < r then f + 1
  else if f % 2 = 0 then f else f + 1

/-- Minimum x over a point list (gdf.total_bounds component); 0 on []. -/
def minLX : List Pt → ℚ
  | [] => 0
  | p :: ps => ps.foldl (fun m q => min m q.x) p.x

/-- Minimum y over a point list. -/
def minLY : List Pt → ℚ
  | [] => 0
  | p :: ps => ps.foldl (fun m q => min m q.y) p.y

/-- Maximum x over a point list. -/
def maxLX : List Pt → ℚ
  | [] => 0
  | p :: ps => ps.foldl (fun m q => max m q.x) p.x

/-- Maximum y over a point list. -/
def maxLY : List Pt → ℚ
  | [] => 0
  | p :: ps => ps.foldl (fun m q => max m q.y) p.y

/-- Number of grid columns: math.ceil((maxx - minx) / grid_size). -/
def colsOf (pts : List Pt) : ℕ := (⌈(maxLX pts - minLX pts) / gridSize⌉ : ℤ).toNat

/-- Number of grid rows: math.ceil((maxy - miny) / grid_size). -/
def rowsOf (pts : List Pt) : ℕ := (⌈(maxLY pts - minLY pts) / gridSize⌉ : ℤ).toNat

/-- The cell built for loop indices `(i, j)` in create_aligned_grids:
box at (minx + i*s, miny + j*s) of side s, with
row = int(round(centroid.y / grid_size)), col = int(round(centroid.x / grid_size)).
Its pandas index is the position in the flattened (i outer, j inner) list.
The homepass column does not exist yet at this stage (0 here). -/
def mkCell (pts : List Pt) (i j : ℕ) : Cell :=
  let x0 := minLX pts + (i : ℚ) * gridSize
  let y0 := minLY pts + (j : ℚ) * gridSize
  { idx := i * rowsOf pts + j
    x0 := x0
    y0 := y0
    row := pyRound ((y0 + gridSize / 2) / gridSize)
    col := pyRound ((x0 + gridSize / 2) / gridSize)
    homepass := 0 }

/-- create_aligned_grids: all cells, i (columns) as the outer loop and
j (rows) as the inner loop, exactly as the two nested `for` loops build the
polygon list. -/
def create_aligned_grids (pts : List Pt) : List Cell :=
  (List.range (colsOf pts)).flatMap (fun i =>
    (List.range (rowsOf pts)).map (fun j => mkCell pts i j))

/-- Shapely `cell polygon contains point`: the point lies strictly inside the
box (a polygon contains a point iff the point is in its interior, so points on
a cell edge are contained by no cell). -/
def cellContains (c : Cell) (p : Pt) : Bool :=
  decide (c.x0 < p.x ∧ p.x < c.x0 + gridSize ∧ c.y0 < p.y ∧ p.y < c.y0 + gridSize)

/-- Number of input points strictly inside a cell (the rows of the spatial
join that actually matched this cell). -/
def matchCount (pts : List Pt) (c : Cell) : ℕ := pts.countP (cellContains c)

/-- The homepass count the app computes per cell:
`gpd.sjoin(grid, gdf, how='left', predicate='contains')` keeps a cell with no
matching point as a single row (with NaN point columns), and
`joined.groupby(joined.index).size()` then counts rows, so a cell with no
contained point still gets size 1.  Hence homepass = max 1 (number of
contained points). -/
def homepassOf (pts : List Pt) (c : Cell) : ℕ :=
  let m := matchCount pts c
  if m = 0 then 1 else m

/-- The grid after the count step: every cell gets its homepass column. -/
def withCounts (pts : List Pt) (grid : List Cell) : List Cell :=
  grid.map (fun c => { c with homepass := homepassOf pts c })

/-- grid_with_hp = grid[grid['homepass'] > 0] (pandas keeps the original
index values and the row order). -/
def gridWithHp (pts : List Pt) : List Cell :=
  (withCounts pts (create_aligned_grids pts)).filter (fun c => 0 < c.homepass)

/-- grid.loc lookup by pandas index. -/
def getCell (grid : List Cell) (i : ℕ) : Option Cell :=
  grid.find? (fun c => c.idx == i)

/-- find_adjacent_grids: for each of the four directions
[(-1,0), (1,0), (0,-1), (0,1)] applied to (row, col), look the label up in the
table (`candidate.index[0]` takes the first matching row), and keep it when it
is unvisited and has homepass > 0. -/
def find_adjacent_grids (grid : List Cell) (cur : Cell) (visited : List ℕ) : List ℕ :=
  ([(-1, 0), (1, 0), (0, -1), (0, 1)] : List (ℤ × ℤ)).filterMap (fun d =>
    match grid.find? (fun c => c.row == cur.row + d.1 && c.col == cur.col + d.2) with
    | some c =>
        if ¬ visited.contains c.idx ∧ 0 < c.homepass then some c.idx else none
    | none => none)

/-- One finalized FAT area: the merged cells (the geometries collected in
current_fat, in merge order), the accumulated homepass total, the sequential
FAT index (the numeric part of the label), and whether the color is green
(current_hp >= 16) rather than red. -/
structure FatArea where
  cells : List Cell
  homepass : ℕ
  label : ℕ
  green : Bool
deriving DecidableEq, Repr

/-- Centroid of a cell's square geometry. -/
def centroidOf (c : Cell) : Pt :=
  ⟨c.x0 + gridSize / 2, c.y0 + gridSize / 2⟩

/-- Euclidean distance between two points is at most `r` (for `r ≥ 0`),
phrased on squares so it stays inside ℚ. -/
def distLe (p q : Pt) (r : ℚ) : Bool :=
  decide ((p.x - q.x) ^ 2 + (p.y - q.y) ^ 2 ≤ r ^ 2)

/-- The breadth-first merge loop of create_optimized_fat_areas
(`while queue and current_hp < 16`), made total by a fuel parameter (callers
supply fuel exceeding the number of enqueue operations ever possible, so the
loop always terminates by its own conditions first).  State: FIFO queue of
pandas indices, visited indices, the merged cells so far, the running total.
Returns the final cells, total, visited set and the remaining queue. -/
def bfsLoop (grid : List Cell) :
    ℕ → List ℕ → List ℕ → List Cell → ℕ → List Cell × ℕ × List ℕ × List ℕ
  | 0, queue, visited, fat, hp => (fat, hp, visited, queue)
  | _ + 1, [], visited, fat, hp => (fat, hp, visited, [])
  | fuel + 1, q :: qs, visited, fat, hp =>
    if 16 ≤ hp then (fat, hp, visited, q :: qs)
    else if visited.contains q then bfsLoop grid fuel qs visited fat hp
    else
      match getCell grid q with
      | none => bfsLoop grid fuel qs visited fat hp
      | some c =>
        if hp + c.homepass ≤ 16 then
          bfsLoop grid fuel (qs ++ find_adjacent_grids grid c (q :: visited))
            (q :: visited) (fat ++ [c]) (hp + c.homepass)
        else bfsLoop grid fuel qs visited fat hp

/-- The body of the rescue for-loop: add the row when the running total stays
at or below 16, otherwise leave the state unchanged. -/
def rescueAdd (st : List Cell × ℕ × List ℕ) (c : Cell) : List Cell × ℕ × List ℕ :=
  if st.2.1 + c.homepass ≤ 16 then (st.1 ++ [c], st.2.1 + c.homepass, c.idx :: st.2.2)
  else st

/-- The isolated-cell rescue block: nearby_grids is the one-off filter of the
table (centroid within 3*15.8 of the seed centroid — the radius is the
hard-coded literal 3*15.8 —, not yet visited, homepass > 0, in table order),
and its rows are then folded over with rescueAdd. -/
def rescueStep (grid : List Cell) (seedCen : Pt) (visited : List ℕ)
    (fat : List Cell) (hp : ℕ) : List Cell × ℕ × List ℕ :=
  let nearby := grid.filter (fun c =>
    distLe (centroidOf c) seedCen (3 * (79 / 5)) &&
    ¬ visited.contains c.idx && decide (0 < c.homepass))
  nearby.foldl rescueAdd (fat, hp, visited)

/-- The body of the main `for idx in sorted_indices` loop: skip visited or
zero-count rows, seed a new area with the row, run the breadth-first merge
seeded with the seed's adjacent cells, run the rescue block when the loop
ended below 16 with an empty queue, then finalize the area (green iff the
total reached 16).  State: (areas so far, visited, next FAT index). -/
def processSeed (grid : List Cell) (fuel : ℕ)
    (st : List FatArea × List ℕ × ℕ) (idx : ℕ) : List FatArea × List ℕ × ℕ :=
  match getCell grid idx with
  | none => st
  | some c =>
    if st.2.1.contains idx ∨ c.homepass = 0 then st
    else
      let r := bfsLoop grid fuel (find_adjacent_grids grid c (idx :: st.2.1))
        (idx :: st.2.1) [c] c.homepass
      let fin :=
        if r.2.1 < 16 ∧ r.2.2.2 = [] then rescueStep grid (centroidOf c) r.2.2.1 r.1 r.2.1
        else (r.1, r.2.1, r.2.2.1)
      (st.1 ++ [{ cells := fin.1, homepass := fin.2.1, label := st.2.2,
                  green := decide (16 ≤ fin.2.1) }],
       fin.2.2, st.2.2 + 1)

/-- Sum of the homepass counts of a list of cells. -/
def sumHp (l : List Cell) : ℕ := (l.map Cell.homepass).sum

/-- Fuel that dominates every possible enqueue: the initial queue and each of
the at most `grid.length` additions contribute at most 4 indices each. -/
def bfsFuel (grid : List Cell) : ℕ := 4 * grid.length + 5

/-- The partitioner run on an explicitly given seed order (the list of pandas
indices to process).  create_optimized_fat_areas instantiates it with the
order produced by sort_values. -/
def fatAreasWithOrder (grid : List Cell) (order : List ℕ) : List FatArea :=
  (order.foldl (processSeed grid (bfsFuel grid)) ([], [], 1)).1

/-- The seed order the app computes:
`grid_with_hp.sort_values('homepass', ascending=False).index`, i.e. the index
column of the table sorted by descending homepass.  Modelling note: pandas'
default quicksort is unstable and fixes no order among equal keys; we model
the sort with a stable merge sort, so ties keep table order. -/
def sortedIndices (grid : List Cell) : List ℕ :=
  (grid.mergeSort (fun a b => b.homepass ≤ a.homepass)).map Cell.idx

/-- The four corner points of a cell's square geometry. -/
def cornersOf (c : Cell) : List Pt :=
  [⟨c.x0, c.y0⟩, ⟨c.x0 + gridSize, c.y0⟩,
   ⟨c.x0 + gridSize, c.y0 + gridSize⟩, ⟨c.x0, c.y0 + gridSize⟩]

/-- Corner points of the squares of a list of cells: the vertex set whose
convex hull is `MultiPolygon(current_fat).convex_hull`. -/
def hullPts (fat : List Cell) : List Pt :=
  fat.flatMap cornersOf

/-- Cross product (q - p) x (r - p): positive when r lies to the left of the
directed line from p through q. -/
def cross (p q r : Pt) : ℚ :=
  (q.x - p.x) * (r.y - p.y) - (q.y - p.y) * (r.x - p.x)

/-- All points of S lie weakly on one side of the line through p and q. -/
def oneSide (p q : Pt) (S : List Pt) : Bool :=
  S.all (fun r => decide (0 ≤ cross p q r)) || S.all (fun r => decide (cross p q r ≤ 0))

/-- Shapely `point.within(convex hull of S)` for a 2-dimensional hull: the
point lies in the interior of the convex hull of the finite set S.  Supporting
line criterion: p is interior iff some point of S differs from p and no line
through p and a point of S has all of S weakly on one side (any supporting
line at a non-interior p can be rotated about p until it meets a point of S).
For the hulls the app builds, S is the corner set of at least one grid square,
so the hull is never degenerate. -/
def withinHull (p : Pt) (S : List Pt) : Bool :=
  S.any (fun q => ¬ q = p) && S.all (fun q => q = p || ¬ oneSide p q S)

/-- The Homepass group exported for one FAT area:
`gdf[gdf.geometry.within(combined_geom)]`, the input points strictly inside
the area's convex hull. -/
def membersOf (pts : List Pt) (fa : FatArea) : List Pt :=
  pts.filter (fun p => withinHull p (hullPts fa.cells))

/-- create_optimized_fat_areas: the FAT areas in seed order, and per area the
list of member points gathered by hull containment. -/
def create_optimized_fat_areas (grid : List Cell) (pts : List Pt) :
    List FatArea × List (List Pt) :=
  let areas := fatAreasWithOrder grid (sortedIndices grid)
  (areas, areas.map (membersOf pts))

/-- The two fatal input conditions of the app script. -/
inductive AppError where
  | noValidPoints
  | noPointsInGrid
deriving DecidableEq, Repr

/-- The app flow around the core (lines 136-164): stop with an error when no
point was loaded; build the aligned grid, count homepasses per cell, keep the
cells with homepass > 0; stop with an error when none remain; otherwise
produce the FAT areas and the per-area homepass groups. -/
def appRun (pts : List Pt) :
    Except AppError (List FatArea × List (List Pt)) :=
  if pts.isEmpty then .error .noValidPoints
  else
    let grid := gridWithHp pts
    if grid.isEmpty then .error .noPointsInGrid
    else .ok (create_optimized_fat_areas grid pts)

/-- The FAT areas of a run ([] when the run failed). -/
def appAreas (pts : List Pt) : List FatArea :=
  match appRun pts with
  | .ok r => r.1
  | .error _ => []

/-- The exported homepass groups of a run ([] when the run failed). -/
def appGroups (pts : List Pt) : List (List Pt) :=
  match appRun pts with
  | .ok r => r.2
  | .error _ => []

/-- A run produced a result rather than stopping with an error. -/
def producedOutput (pts : List Pt) : Bool :=
  match appRun pts with
  | .ok _ => true
  | .error _ => false

/-- Grid 4-connectivity on the stored labels, as the claims phrase it:
row differs by one at the same column, or the column differs by one at the
same row. -/
def adj4 (a b : Cell) : Prop :=
  (b.col = a.col ∧ (b.row = a.row + 1 ∨ b.row = a.row - 1)) ∨
  (b.row = a.row ∧ (b.col = a.col + 1 ∨ b.col = a.col - 1))

/-- The conditions of the breadth-first merge, per added cell, written as a
trace predicate: starting from visited set `vis`, merged cells `fat` and
running total `hp`, the cells of `extra` were added in this order and each
was, at its addition time, a grid row with positive homepass count, not yet
visited, 4-connected to an already-merged cell, and its count kept the
running total at or below 16. -/
inductive GoodExt (grid : List Cell) : List ℕ → List Cell → ℕ → List Cell → Prop where
  | nil : ∀ vis fat hp, GoodExt grid vis fat hp []
  | cons : ∀ vis fat hp c rest,
      c ∈ grid → 0 < c.homepass → c.idx ∉ vis →
      (∃ c2 ∈ fat, adj4 c2 c) → hp + c.homepass ≤ 16 →
      GoodExt grid (c.idx :: vis) (fat ++ [c]) (hp + c.homepass) rest →
      GoodExt grid vis fat hp (c :: rest)

/-- A seed order compatible with the sort key the app uses on line 69:
some arrangement of the table rows that is sorted by descending homepass
(sort_values fixes nothing more; in particular it fixes no order among equal
counts), read off as its index column. -/
def IsSeedOrder (grid : List Cell) (o : List ℕ) : Prop :=
  ∃ l : List Cell, l.Perm grid ∧
    List.Sorted (fun a b : Cell => b.homepass ≤ a.homepass) l ∧ o = l.map Cell.idx

/-- C1 counterexample input: the corner point (0,0) plus 17 points strictly
inside the single grid cell, so the seed cell alone counts 17. -/
def pts1 : List Pt :=
  ⟨0, 0⟩ :: ((List.range 14).map (fun k => (⟨(k + 1 : ℕ), 1⟩ : Pt))) ++
    [⟨1, 2⟩, ⟨2, 2⟩, ⟨3, 2⟩]

/-- C2 counterexample input: the extent-corner point (0,0) lies on the
boundary of the only cell and of the only hull. -/
def pts2 : List Pt := [⟨0, 0⟩, ⟨5, 5⟩]

/-- C3 counterexample input: two points spanning a 2 x 2 grid with
min_x = min_y = 1. -/
def pts3 : List Pt := [⟨1, 1⟩, ⟨20, 20⟩]

/-- C8 failing input: both points lie on cell boundaries, so no cell strictly
contains any point. -/
def pts8 : List Pt := [⟨0, 0⟩, ⟨79 / 5, 79 / 5⟩]

/-- C9 input: the third point lies on the shared vertical edge x = 15.8 of
the two bottom cells. -/
def pts9 : List Pt := [⟨0, 0⟩, ⟨20, 20⟩, ⟨79 / 5, 5⟩]

/-- C9 comparison input: pts9 without the shared-edge point (the extent and
hence the grid are unchanged). -/
def pts9r : List Pt := [⟨0, 0⟩, ⟨20, 20⟩]

/-- The shared-edge point of pts9. -/
def edgePt : Pt := ⟨79 / 5, 5⟩

/-- C10 input, cell A (6 points strictly inside the lower-left cell). -/
def ptsA : List Pt := (List.range 6).map (fun k => ⟨(k + 2 : ℕ), 2⟩)

/-- C10 input, cell B (5 points strictly inside the lower-right cell). -/
def ptsB : List Pt := (List.range 5).map (fun k => ⟨(k + 18 : ℕ), 2⟩)

/-- C10 input, cell C (5 points strictly inside the upper-left cell). -/
def ptsC : List Pt := (List.range 5).map (fun k => ⟨(k + 2 : ℕ), 18⟩)

/-- C10 input, cell D (16 points strictly inside the upper-right cell; the
first one also lies strictly inside the convex hull of cells A, B, C). -/
def ptsD : List Pt :=
  ⟨919 / 50, 919 / 50⟩ ::
    (List.range 15).map (fun k => ⟨163 / 5 - (k + 1 : ℕ) / 10, 158 / 5⟩)

/-- C10 counterexample input: 33 points over a 2 x 2 grid; the group merged
from cells A, C, B records 16 homepasses but exports 17 member points. -/
def pts10 : List Pt := ⟨1, 1⟩ :: ptsA ++ ptsB ++ ptsC ++ ptsD

/-- C4 counterexample table: three cells in a row, all with count 8, so the
descending-count key alone does not separate them. -/
def gridC4 : List Cell :=
  [⟨0, 0, 0, 0, 0, 8⟩, ⟨1, 79 / 5, 0, 0, 1, 8⟩, ⟨2, 158 / 5, 0, 0, 2, 8⟩]

/-- Witness table for the amended C4: two cells with distinct counts. -/
def gridW4 : List Cell :=
  [⟨0, 0, 0, 0, 0, 2⟩, ⟨1, 79 / 5, 0, 0, 1, 1⟩]

/-- Witness table for C6: two non-adjacent cells three cell-widths apart
(centroid distance exactly 3 * 15.8), merged only by the rescue search. -/
def gridC6 : List Cell :=
  [⟨0, 0, 0, 0, 0, 5⟩, ⟨1, 237 / 5, 0, 0, 3, 5⟩]

/-- Witness table for C5: two adjacent cells. -/
def gridW5 : List Cell :=
  [⟨0, 0, 0, 0, 0, 6⟩, ⟨1, 79 / 5, 0, 0, 1, 5⟩]

lemma mem_of_getCell {grid : List Cell} {i : ℕ} {c : Cell}
    (h : getCell grid i = some c) : c ∈ grid ∧ c.idx = i := by
  refine ⟨List.mem_of_find?_eq_some h, ?_⟩
  have h2 := List.find?_some h
  simpa using h2

lemma sumHp_nil : sumHp [] = 0 := rfl

lemma sumHp_append (l1 l2 : List Cell) : sumHp (l1 ++ l2) = sumHp l1 + sumHp l2 := by
  simp [sumHp]

lemma sumHp_cons (c : Cell) (l : List Cell) : sumHp (c :: l) = c.homepass + sumHp l := by
  simp [sumHp]

/-- The merge loop never raises a total that is at or below 16 above 16. -/
lemma bfsLoop_hp_le (grid : List Cell) :
    ∀ (fuel : ℕ) (queue vis : List ℕ) (fat : List Cell) (hp : ℕ),
    hp ≤ 16 → (bfsLoop grid fuel queue vis fat hp).2.1 ≤ 16 := by
  intro fuel
  induction fuel with
  | zero => intro queue vis fat hp h; simpa [bfsLoop] using h
  | succ n ih =>
    intro queue vis fat hp h
    match queue with
    | [] => simpa [bfsLoop] using h
    | q :: qs =>
      by_cases h16 : 16 ≤ hp
      · simpa [bfsLoop, h16] using h
      · by_cases hv : q ∈ vis
        · simpa [bfsLoop, h16, hv] using ih qs vis fat hp h
        · cases hget : getCell grid q with
          | none => simpa [bfsLoop, h16, hv, hget] using ih qs vis fat hp h
          | some c =>
            by_cases hadd : hp + c.homepass ≤ 16
            · simpa [bfsLoop, h16, hv, hget, hadd] using
                ih (qs ++ find_adjacent_grids grid c (q :: vis)) (q :: vis)
                  (fat ++ [c]) (hp + c.homepass) hadd
            · simpa [bfsLoop, h16, hv, hget, hadd] using ih qs vis fat hp h

/-- The merge loop accumulates the homepass counts of exactly the cells it
collects. -/
lemma bfsLoop_hp_sum (grid : List Cell) :
    ∀ (fuel : ℕ) (queue vis : List ℕ) (fat : List Cell) (hp : ℕ),
    hp = sumHp fat →
    (bfsLoop grid fuel queue vis fat hp).2.1 = sumHp (bfsLoop grid fuel queue vis fat hp).1 := by
  intro fuel
  induction fuel with
  | zero => intro queue vis fat hp h; simpa [bfsLoop] using h
  | succ n ih =>
    intro queue vis fat hp h
    match queue with
    | [] => simpa [bfsLoop] using h
    | q :: qs =>
      by_cases h16 : 16 ≤ hp
      · simpa [bfsLoop, h16] using h
      · by_cases hv : q ∈ vis
        · simpa [bfsLoop, h16, hv] using ih qs vis fat hp h
        · cases hget : getCell grid q with
          | none => simpa [bfsLoop, h16, hv, hget] using ih qs vis fat hp h
          | some c =>
            by_cases hadd : hp + c.homepass ≤ 16
            · have h2 : hp + c.homepass = sumHp (fat ++ [c]) := by
                rw [sumHp_append, ← h, sumHp_cons, sumHp_nil]
                omega
              simpa [bfsLoop, h16, hv, hget, hadd] using
                ih (qs ++ find_adjacent_grids grid c (q :: vis)) (q :: vis)
                  (fat ++ [c]) (hp + c.homepass) h2
            · simpa [bfsLoop, h16, hv, hget, hadd] using ih qs vis fat hp h

/-- Folding rescueAdd over any candidate list extends the merged cells by some
sublist of the candidates, adds exactly their counts, never raises a total at
or below 16 above 16, and adds every candidate that would still fit under the
final total. -/
lemma rescueFold_spec :
    ∀ (l : List Cell) (st : List Cell × ℕ × List ℕ),
    ∃ extr,
      (l.foldl rescueAdd st).1 = st.1 ++ extr ∧
      (l.foldl rescueAdd st).2.1 = st.2.1 + sumHp extr ∧
      (∀ c ∈ extr, c ∈ l) ∧
      (extr ≠ [] → (l.foldl rescueAdd st).2.1 ≤ 16) ∧
      (st.2.1 ≤ 16 → (l.foldl rescueAdd st).2.1 ≤ 16) ∧
      (∀ c ∈ l, (l.foldl rescueAdd st).2.1 + c.homepass ≤ 16 →
        c ∈ (l.foldl rescueAdd st).1) := by
  intro l
  induction l with
  | nil =>
    intro st
    exact ⟨[], by simp, by simp [sumHp], by simp, by simp, fun h => h, by simp⟩
  | cons c l ih =>
    intro st
    by_cases hadd : st.2.1 + c.homepass ≤ 16
    · obtain ⟨extr, h1, h2, h3, _h4, h5, h6⟩ :=
        ih (st.1 ++ [c], st.2.1 + c.homepass, c.idx :: st.2.2)
      have hstep : (c :: l).foldl rescueAdd st =
          l.foldl rescueAdd (st.1 ++ [c], st.2.1 + c.homepass, c.idx :: st.2.2) := by
        simp [List.foldl_cons, rescueAdd, hadd]
      refine ⟨c :: extr, ?_, ?_, ?_, ?_, ?_, ?_⟩
      · rw [hstep, h1]; simp
      · rw [hstep, h2]
        show st.2.1 + c.homepass + sumHp extr = st.2.1 + sumHp (c :: extr)
        rw [sumHp_cons]; omega
      · intro c2 hc2
        rcases List.mem_cons.mp hc2 with h | h
        · exact h ▸ List.mem_cons_self _ _
        · exact List.mem_cons_of_mem _ (h3 c2 h)
      · intro _; rw [hstep]; exact h5 hadd
      · intro _; rw [hstep]; exact h5 hadd
      · intro c2 hc2 hfit
        rcases List.mem_cons.mp hc2 with h | h
        · rw [hstep, h1, h]
          exact List.mem_append_left _ (List.mem_append_right _ (List.mem_cons_self _ _))
        · rw [hstep]
          refine h6 c2 h ?_
          rw [← hstep]
          exact hfit
    · obtain ⟨extr, h1, h2, h3, h4, h5, h6⟩ := ih st
      have hstep : (c :: l).foldl rescueAdd st = l.foldl rescueAdd st := by
        simp [List.foldl_cons, rescueAdd, hadd]
      refine ⟨extr, ?_, ?_, ?_, ?_, ?_, ?_⟩
      · rw [hstep, h1]
      · rw [hstep, h2]
      · exact fun c2 hc2 => List.mem_cons_of_mem _ (h3 c2 hc2)
      · intro h; rw [hstep]; exact h4 h
      · intro h; rw [hstep]; exact h5 h
      · intro c2 hc2 hfit
        rcases List.mem_cons.mp hc2 with h | h
        · exfalso
          rw [hstep, h2] at hfit
          subst h
          omega
        · rw [hstep]
          refine h6 c2 h ?_
          rw [← hstep]
          exact hfit

/-- Specification of the rescue block: the added cells are table rows within
3 cell-widths of the seed centroid, unvisited and non-empty; their counts are
added to the total; a total at or below 16 stays there; and every qualifying
row that still fits under the final total has been added. -/
lemma rescueStep_spec (grid : List Cell) (cen : Pt) (vis : List ℕ)
    (fat : List Cell) (hp : ℕ) :
    ∃ extr,
      (rescueStep grid cen vis fat hp).1 = fat ++ extr ∧
      (rescueStep grid cen vis fat hp).2.1 = hp + sumHp extr ∧
      (∀ c ∈ extr, c ∈ grid ∧ distLe (centroidOf c) cen (3 * (79 / 5)) = true ∧
        vis.contains c.idx = false ∧ 0 < c.homepass) ∧
      (extr ≠ [] → (rescueStep grid cen vis fat hp).2.1 ≤ 16) ∧
      (hp ≤ 16 → (rescueStep grid cen vis fat hp).2.1 ≤ 16) ∧
      (∀ c ∈ grid, distLe (centroidOf c) cen (3 * (79 / 5)) = true →
        vis.contains c.idx = false → 0 < c.homepass →
        (rescueStep grid cen vis fat hp).2.1 + c.homepass ≤ 16 →
        c ∈ (rescueStep grid cen vis fat hp).1) := by
  obtain ⟨extr, h1, h2, h3, h4, h5, h6⟩ :=
    rescueFold_spec
      (grid.filter (fun c =>
        distLe (centroidOf c) cen (3 * (79 / 5)) &&
        ¬ vis.contains c.idx && decide (0 < c.homepass)))
      (fat, hp, vis)
  refine ⟨extr, h1, h2, ?_, h4, h5, ?_⟩
  · intro c hc
    have hm := h3 c hc
    rw [List.mem_filter] at hm
    obtain ⟨hmem, hpred⟩ := hm
    simp only [Bool.and_eq_true, decide_eq_true_eq] at hpred
    refine ⟨hmem, hpred.1.1, ?_, hpred.2⟩
    rcases h : vis.contains c.idx with _ | _
    · rfl
    · exfalso
      have := hpred.1.2
      rw [h] at this
      simp at this
  · intro c hc hdist hvis hpos hfit
    refine h6 c ?_ hfit
    rw [List.mem_filter]
    refine ⟨hc, ?_⟩
    simp only [Bool.and_eq_true, decide_eq_true_eq]
    exact ⟨⟨hdist, by rw [hvis]; simp⟩, hpos⟩

/-- Indices returned by find_adjacent_grids belong to table rows that are
4-connected to the current cell, unvisited and non-empty. -/
lemma find_adjacent_spec {grid : List Cell} {cur : Cell} {vis : List ℕ} {r : ℕ}
    (h : r ∈ find_adjacent_grids grid cur vis) :
    ∃ c2, c2 ∈ grid ∧ c2.idx = r ∧ 0 < c2.homepass ∧
      vis.contains c2.idx = false ∧ adj4 cur c2 := by
  unfold find_adjacent_grids at h
  rw [List.mem_filterMap] at h
  obtain ⟨d, hd, hfm⟩ := h
  cases hfound : grid.find? (fun c => c.row == cur.row + d.1 && c.col == cur.col + d.2) with
  | none => rw [hfound] at hfm; simp at hfm
  | some c =>
    rw [hfound] at hfm
    have hfm2 : (if ¬ vis.contains c.idx = true ∧ 0 < c.homepass
        then some c.idx else none) = some r := hfm
    by_cases hcond : ¬ vis.contains c.idx = true ∧ 0 < c.homepass
    · rw [if_pos hcond] at hfm2
      have hcr : c.idx = r := by simpa using hfm2
      have hc : c ∈ grid := List.mem_of_find?_eq_some hfound
      have hlbl := List.find?_some hfound
      simp only [Bool.and_eq_true, beq_iff_eq] at hlbl
      refine ⟨c, hc, hcr, hcond.2, by simpa using hcond.1, ?_⟩
      have hd4 : d = ((-1 : ℤ), (0 : ℤ)) ∨ d = (1, 0) ∨ d = (0, -1) ∨ d = (0, 1) := by
        simpa using hd
      rcases hd4 with h | h | h | h <;> subst h
      · exact Or.inl ⟨by simpa using hlbl.2, Or.inr (by omega)⟩
      · exact Or.inl ⟨by simpa using hlbl.2, Or.inl (by omega)⟩
      · exact Or.inr ⟨by simpa using hlbl.1, Or.inr (by omega)⟩
      · exact Or.inr ⟨by simpa using hlbl.1, Or.inl (by omega)⟩
    · rw [if_neg hcond] at hfm2; simp at hfm2

/-- Every cell the breadth-first merge collects beyond the initial ones was,
at its addition time, a grid row with positive count, unvisited, 4-connected
to an already collected cell, and fit under 16 — provided every queued index
points at such a row (as the seed's adjacency list does) and the table's
pandas indices are distinct. -/
lemma bfsLoop_goodExt (grid : List Cell) (hn : (grid.map Cell.idx).Nodup) :
    ∀ (fuel : ℕ) (queue vis : List ℕ) (fat : List Cell) (hp : ℕ),
    (∀ q ∈ queue, ∃ c2, c2 ∈ grid ∧ c2.idx = q ∧ 0 < c2.homepass ∧
      ∃ c3 ∈ fat, adj4 c3 c2) →
    ∃ extra, (bfsLoop grid fuel queue vis fat hp).1 = fat ++ extra ∧
      GoodExt grid vis fat hp extra := by
  intro fuel
  induction fuel with
  | zero =>
    intro queue vis fat hp _
    exact ⟨[], by simp [bfsLoop], GoodExt.nil vis fat hp⟩
  | succ n ih =>
    intro queue vis fat hp hq
    match queue with
    | [] => exact ⟨[], by simp [bfsLoop], GoodExt.nil vis fat hp⟩
    | q :: qs =>
      by_cases h16 : 16 ≤ hp
      · exact ⟨[], by simp [bfsLoop, h16], GoodExt.nil vis fat hp⟩
      · by_cases hv : q ∈ vis
        · obtain ⟨extra, he, hg⟩ := ih qs vis fat hp (fun x hx => hq x (List.mem_cons_of_mem _ hx))
          exact ⟨extra, by simpa [bfsLoop, h16, hv] using he, hg⟩
        · cases hget : getCell grid q with
          | none =>
            obtain ⟨extra, he, hg⟩ := ih qs vis fat hp (fun x hx => hq x (List.mem_cons_of_mem _ hx))
            exact ⟨extra, by simpa [bfsLoop, h16, hv, hget] using he, hg⟩
          | some c =>
            obtain ⟨hc, hci⟩ := mem_of_getCell hget
            obtain ⟨c2, hc2, hc2i, hc2pos, hadj⟩ := hq q (List.mem_cons_self _ _)
            have hcc2 : c = c2 := by
              refine List.inj_on_of_nodup_map hn hc hc2 ?_
              rw [hci, hc2i]
            subst hcc2
            by_cases hadd : hp + c.homepass ≤ 16
            · have hqinv : ∀ x ∈ qs ++ find_adjacent_grids grid c (q :: vis),
                  ∃ d2, d2 ∈ grid ∧ d2.idx = x ∧ 0 < d2.homepass ∧
                    ∃ d3 ∈ fat ++ [c], adj4 d3 d2 := by
                intro x hx
                rcases List.mem_append.mp hx with hx | hx
                · obtain ⟨d2, hd2, hd2i, hd2pos, d3, hd3, hd3adj⟩ :=
                    hq x (List.mem_cons_of_mem _ hx)
                  exact ⟨d2, hd2, hd2i, hd2pos, d3, List.mem_append_left _ hd3, hd3adj⟩
                · obtain ⟨d2, hd2, hd2i, hd2pos, _, hd2adj⟩ := find_adjacent_spec hx
                  exact ⟨d2, hd2, hd2i, hd2pos, c,
                    List.mem_append_right _ (List.mem_cons_self _ _), hd2adj⟩
              obtain ⟨extra, he, hg⟩ := ih (qs ++ find_adjacent_grids grid c (q :: vis))
                (q :: vis) (fat ++ [c]) (hp + c.homepass) hqinv
              refine ⟨c :: extra, ?_, ?_⟩
              · have : (bfsLoop grid (n + 1) (q :: qs) vis fat hp).1 =
                    (bfsLoop grid n (qs ++ find_adjacent_grids grid c (q :: vis))
                      (q :: vis) (fat ++ [c]) (hp + c.homepass)).1 := by
                  simp [bfsLoop, h16, hv, hget, hadd]
                rw [this, he]
                simp
              · refine GoodExt.cons vis fat hp c extra hc hc2pos (hci ▸ hv) hadj hadd ?_
                rw [hci]
                exact hg
            · obtain ⟨extra, he, hg⟩ := ih qs vis fat hp
                (fun x hx => hq x (List.mem_cons_of_mem _ hx))
              exact ⟨extra, by simpa [bfsLoop, h16, hv, hget, hadd] using he, hg⟩

/-- processSeed either skips the row or appends exactly one finalized area
built from the merge result (with the rescue applied exactly when the loop
ended below 16 with an empty queue). -/
lemma processSeed_shape (grid : List Cell) (fuel : ℕ)
    (st : List FatArea × List ℕ × ℕ) (idx : ℕ) :
    processSeed grid fuel st idx = st ∨
    ∃ c, getCell grid idx = some c ∧ st.2.1.contains idx = false ∧ ¬ c.homepass = 0 ∧
      ∃ fin : List Cell × ℕ × List ℕ,
        fin = (if (bfsLoop grid fuel (find_adjacent_grids grid c (idx :: st.2.1))
                    (idx :: st.2.1) [c] c.homepass).2.1 < 16 ∧
                  (bfsLoop grid fuel (find_adjacent_grids grid c (idx :: st.2.1))
                    (idx :: st.2.1) [c] c.homepass).2.2.2 = []
               then rescueStep grid (centroidOf c)
                    (bfsLoop grid fuel (find_adjacent_grids grid c (idx :: st.2.1))
                      (idx :: st.2.1) [c] c.homepass).2.2.1
                    (bfsLoop grid fuel (find_adjacent_grids grid c (idx :: st.2.1))
                      (idx :: st.2.1) [c] c.homepass).1
                    (bfsLoop grid fuel (find_adjacent_grids grid c (idx :: st.2.1))
                      (idx :: st.2.1) [c] c.homepass).2.1
               else ((bfsLoop grid fuel (find_adjacent_grids grid c (idx :: st.2.1))
                       (idx :: st.2.1) [c] c.homepass).1,
                     (bfsLoop grid fuel (find_adjacent_grids grid c (idx :: st.2.1))
                       (idx :: st.2.1) [c] c.homepass).2.1,
                     (bfsLoop grid fuel (find_adjacent_grids grid c (idx :: st.2.1))
                       (idx :: st.2.1) [c] c.homepass).2.2.1)) ∧
        processSeed grid fuel st idx =
          (st.1 ++ [{ cells := fin.1, homepass := fin.2.1, label := st.2.2,
                      green := decide (16 ≤ fin.2.1) }], fin.2.2, st.2.2 + 1) := by
  cases hget : getCell grid idx with
  | none =>
    left
    simp [processSeed, hget]
  | some c =>
    by_cases hskip : st.2.1.contains idx = true ∨ c.homepass = 0
    · left
      simp only [processSeed, hget]
      rw [if_pos]
      simpa using hskip
    · right
      push_neg at hskip
      refine ⟨c, rfl, by simpa using hskip.1, hskip.2, ?_⟩
      refine ⟨_, rfl, ?_⟩
      simp only [processSeed, hget]
      rw [if_neg]
      simpa using hskip

/-- When every cell of the table counts at most 16, each area processSeed
appends has a total of at most 16. -/
lemma processSeed_hp_le (grid : List Cell) (hall : ∀ c ∈ grid, c.homepass ≤ 16)
    (fuel : ℕ) (st : List FatArea × List ℕ × ℕ) (idx : ℕ) :
    ∀ fa ∈ (processSeed grid fuel st idx).1, fa ∈ st.1 ∨ fa.homepass ≤ 16 := by
  intro fa hfa
  rcases processSeed_shape grid fuel st idx with h | ⟨c, hget, _, _, fin, hfin, heq⟩
  · rw [h] at hfa
    exact Or.inl hfa
  · rw [heq] at hfa
    rcases List.mem_append.mp hfa with h | h
    · exact Or.inl h
    · right
      have hfa2 : fa = FatArea.mk fin.1 fin.2.1 st.2.2 (decide (16 ≤ fin.2.1)) := by
        simpa using h
      have hseed : c.homepass ≤ 16 := hall c (mem_of_getCell hget).1
      have hbfs : (bfsLoop grid fuel (find_adjacent_grids grid c (idx :: st.2.1))
          (idx :: st.2.1) [c] c.homepass).2.1 ≤ 16 :=
        bfsLoop_hp_le grid fuel _ _ _ _ hseed
      rw [hfa2]
      show fin.2.1 ≤ 16
      rw [hfin]
      by_cases hco : (bfsLoop grid fuel (find_adjacent_grids grid c (idx :: st.2.1))
            (idx :: st.2.1) [c] c.homepass).2.1 < 16 ∧
          (bfsLoop grid fuel (find_adjacent_grids grid c (idx :: st.2.1))
            (idx :: st.2.1) [c] c.homepass).2.2.2 = []
      · rw [if_pos hco]
        obtain ⟨_, _, _, _, _, h5, _⟩ := rescueStep_spec grid (centroidOf c)
          (bfsLoop grid fuel (find_adjacent_grids grid c (idx :: st.2.1))
            (idx :: st.2.1) [c] c.homepass).2.2.1
          (bfsLoop grid fuel (find_adjacent_grids grid c (idx :: st.2.1))
            (idx :: st.2.1) [c] c.homepass).1
          (bfsLoop grid fuel (find_adjacent_grids grid c (idx :: st.2.1))
            (idx :: st.2.1) [c] c.homepass).2.1
        exact h5 hbfs
      · rw [if_neg hco]
        exact hbfs

/-- The total processSeed records on each appended area is the sum of the
counts of the cells it collected. -/
lemma processSeed_hp_sum (grid : List Cell) (fuel : ℕ)
    (st : List FatArea × List ℕ × ℕ) (idx : ℕ) :
    ∀ fa ∈ (processSeed grid fuel st idx).1, fa ∈ st.1 ∨ fa.homepass = sumHp fa.cells := by
  intro fa hfa
  rcases processSeed_shape grid fuel st idx with h | ⟨c, _, _, _, fin, hfin, heq⟩
  · rw [h] at hfa
    exact Or.inl hfa
  · rw [heq] at hfa
    rcases List.mem_append.mp hfa with h | h
    · exact Or.inl h
    · right
      have hfa2 : fa = FatArea.mk fin.1 fin.2.1 st.2.2 (decide (16 ≤ fin.2.1)) := by
        simpa using h
      have hseed : c.homepass = sumHp [c] := by
        rw [sumHp_cons, sumHp_nil]
        omega
      have hbfs : (bfsLoop grid fuel (find_adjacent_grids grid c (idx :: st.2.1))
            (idx :: st.2.1) [c] c.homepass).2.1 =
          sumHp (bfsLoop grid fuel (find_adjacent_grids grid c (idx :: st.2.1))
            (idx :: st.2.1) [c] c.homepass).1 :=
        bfsLoop_hp_sum grid fuel _ _ _ _ hseed
      rw [hfa2]
      show fin.2.1 = sumHp fin.1
      rw [hfin]
      by_cases hco : (bfsLoop grid fuel (find_adjacent_grids grid c (idx :: st.2.1))
            (idx :: st.2.1) [c] c.homepass).2.1 < 16 ∧
          (bfsLoop grid fuel (find_adjacent_grids grid c (idx :: st.2.1))
            (idx :: st.2.1) [c] c.homepass).2.2.2 = []
      · rw [if_pos hco]
        obtain ⟨extr, h1, h2, _, _, _, _⟩ := rescueStep_spec grid (centroidOf c)
          (bfsLoop grid fuel (find_adjacent_grids grid c (idx :: st.2.1))
            (idx :: st.2.1) [c] c.homepass).2.2.1
          (bfsLoop grid fuel (find_adjacent_grids grid c (idx :: st.2.1))
            (idx :: st.2.1) [c] c.homepass).1
          (bfsLoop grid fuel (find_adjacent_grids grid c (idx :: st.2.1))
            (idx :: st.2.1) [c] c.homepass).2.1
        rw [h1, h2, sumHp_append, hbfs]
      · rw [if_neg hco]
        exact hbfs

/-- The color recorded on each appended area is green exactly when its total
reached 16. -/
lemma processSeed_green (grid : List Cell) (fuel : ℕ)
    (st : List FatArea × List ℕ × ℕ) (idx : ℕ) :
    ∀ fa ∈ (processSeed grid fuel st idx).1,
      fa ∈ st.1 ∨ (fa.green = true ↔ 16 ≤ fa.homepass) := by
  intro fa hfa
  rcases processSeed_shape grid fuel st idx with h | ⟨c, _, _, _, fin, _, heq⟩
  · rw [h] at hfa
    exact Or.inl hfa
  · rw [heq] at hfa
    rcases List.mem_append.mp hfa with h | h
    · exact Or.inl h
    · right
      have hfa2 : fa = FatArea.mk fin.1 fin.2.1 st.2.2 (decide (16 ≤ fin.2.1)) := by
        simpa using h
      rw [hfa2]
      simp

/-- Any property of the appended areas that processSeed guarantees is enjoyed
by every area a fold over the seed order produces. -/
lemma foldl_processSeed_inv (grid : List Cell) (fuel : ℕ) (P : FatArea → Prop)
    (hstep : ∀ st idx, ∀ fa ∈ (processSeed grid fuel st idx).1, fa ∈ st.1 ∨ P fa) :
    ∀ (order : List ℕ) (st : List FatArea × List ℕ × ℕ),
    (∀ fa ∈ st.1, P fa) →
    ∀ fa ∈ (order.foldl (processSeed grid fuel) st).1, P fa := by
  intro order
  induction order with
  | nil => intro st hst fa hfa; exact hst fa hfa
  | cons i order ih =>
    intro st hst fa hfa
    refine ih (processSeed grid fuel st i) ?_ fa (by simpa using hfa)
    intro fb hfb
    rcases hstep st i fb hfb with h | h
    · exact hst fb h
    · exact h

lemma gridSize_pos : (0 : ℚ) < gridSize := by norm_num [gridSize]

/-- Every cell of the aligned grid is the (i, j) tile for some in-range loop
indices. -/
lemma mem_create_aligned {pts : List Pt} {c : Cell}
    (h : c ∈ create_aligned_grids pts) :
    ∃ i j : ℕ, i < colsOf pts ∧ j < rowsOf pts ∧ c = mkCell pts i j := by
  unfold create_aligned_grids at h
  rw [List.mem_flatMap] at h
  obtain ⟨i, hi, h2⟩ := h
  rw [List.mem_map] at h2
  obtain ⟨j, hj, h3⟩ := h2
  exact ⟨i, j, List.mem_range.mp hi, List.mem_range.mp hj, h3.symm⟩

/-- A point strictly inside the (i, j) tile has floor((y - min_y)/s) = j. -/
lemma floor_of_inside {m s v : ℚ} {j : ℕ} (hs : 0 < s)
    (h1 : m + (j : ℚ) * s < v) (h2 : v < m + (j : ℚ) * s + s) :
    ⌊(v - m) / s⌋ = (j : ℤ) := by
  rw [Int.floor_eq_iff]
  constructor
  · rw [le_div_iff₀ hs]
    push_cast
    linarith
  · rw [div_lt_iff₀ hs]
    push_cast
    linarith


/-- Inside an axis-aligned cell, any directed line through the point and any
second point has some corner of the cell strictly on its right: otherwise all
four corners would lie weakly left, forcing the direction to vanish. -/
lemma exists_corner_cross_neg (c : Cell) (p q : Pt)
    (h1 : c.x0 < p.x) (h2 : p.x < c.x0 + gridSize)
    (h3 : c.y0 < p.y) (h4 : p.y < c.y0 + gridSize)
    (hqp : q ≠ p) :
    ∃ r ∈ cornersOf c, cross p q r < 0 := by
  by_contra hcon
  push_neg at hcon
  have k1 := hcon ⟨c.x0, c.y0⟩ (by simp [cornersOf])
  have k2 := hcon ⟨c.x0 + gridSize, c.y0⟩ (by simp [cornersOf])
  have k3 := hcon ⟨c.x0 + gridSize, c.y0 + gridSize⟩ (by simp [cornersOf])
  have k4 := hcon ⟨c.x0, c.y0 + gridSize⟩ (by simp [cornersOf])
  simp only [cross, not_lt] at k1 k2 k3 k4
  have hs := gridSize_pos
  -- abbreviations
  have hu1 : c.x0 - p.x < 0 := by linarith
  have hu2 : 0 < c.x0 + gridSize - p.x := by linarith
  have hw1 : c.y0 - p.y < 0 := by linarith
  have hw2 : 0 < c.y0 + gridSize - p.y := by linarith
  -- first: the y-component of q - p vanishes
  have hB1 : 0 ≤ (q.y - p.y) * (-(c.x0 - p.x)) := by
    nlinarith [mul_nonneg (le_of_lt hw2) k1, mul_nonneg (le_of_lt (neg_pos.mpr hw1)) k4]
  have hB2 : (q.y - p.y) * (c.x0 + gridSize - p.x) ≤ 0 := by
    nlinarith [mul_nonneg (le_of_lt hw2) k2, mul_nonneg (le_of_lt (neg_pos.mpr hw1)) k3]
  have hBge : 0 ≤ q.y - p.y := by nlinarith [hB1, hu1]
  have hBle : q.y - p.y ≤ 0 := by nlinarith [hB2, hu2]
  have hB : q.y - p.y = 0 := le_antisymm hBle hBge
  -- then the x-component vanishes as well
  have hAle : q.x - p.x ≤ 0 := by nlinarith [k1, hw1, hB]
  have hAge : 0 ≤ q.x - p.x := by nlinarith [k4, hw2, hB]
  have hA : q.x - p.x = 0 := le_antisymm hAle hAge
  apply hqp
  have hx : q.x = p.x := by linarith
  have hy : q.y = p.y := by linarith
  cases q
  cases p
  simp_all

/-- Mirror image of exists_corner_cross_neg: some corner lies strictly on the
left of the directed line. -/
lemma exists_corner_cross_pos (c : Cell) (p q : Pt)
    (h1 : c.x0 < p.x) (h2 : p.x < c.x0 + gridSize)
    (h3 : c.y0 < p.y) (h4 : p.y < c.y0 + gridSize)
    (hqp : q ≠ p) :
    ∃ r ∈ cornersOf c, 0 < cross p q r := by
  have hqp2 : (⟨2 * p.x - q.x, 2 * p.y - q.y⟩ : Pt) ≠ p := by
    intro he
    apply hqp
    have hx : 2 * p.x - q.x = p.x := congrArg Pt.x he
    have hy : 2 * p.y - q.y = p.y := congrArg Pt.y he
    cases q
    cases p
    simp_all
    constructor <;> linarith
  obtain ⟨r, hr, hneg⟩ := exists_corner_cross_neg c p ⟨2 * p.x - q.x, 2 * p.y - q.y⟩ h1 h2 h3 h4 hqp2
  refine ⟨r, hr, ?_⟩
  have hflip : cross p ⟨2 * p.x - q.x, 2 * p.y - q.y⟩ r = -(cross p q r) := by
    simp only [cross]
    ring
  rw [hflip] at hneg
  linarith

/-- A point strictly inside one of the merged cells lies strictly inside the
convex hull of the merged geometry: no supporting line through the point
exists, since its own cell has corners strictly on both sides of every line
through the point. -/
lemma withinHull_of_contains {fat : List Cell} {c : Cell} {p : Pt} (hc : c ∈ fat)
    (hcont : cellContains c p = true) : withinHull p (hullPts fat) = true := by
  rw [cellContains, decide_eq_true_eq] at hcont
  obtain ⟨h1, h2, h3, h4⟩ := hcont
  have hsub : ∀ r ∈ cornersOf c, r ∈ hullPts fat := by
    intro r hr
    exact List.mem_flatMap.mpr ⟨c, hc, hr⟩
  unfold withinHull
  rw [Bool.and_eq_true]
  constructor
  · rw [List.any_eq_true]
    refine ⟨⟨c.x0, c.y0⟩, hsub _ (by simp [cornersOf]), ?_⟩
    rw [decide_eq_true_eq]
    intro he
    have hx : c.x0 = p.x := congrArg Pt.x he
    rw [hx] at h1
    exact absurd h1 (lt_irrefl _)
  · rw [List.all_eq_true]
    intro q hq
    by_cases hqp : q = p
    · simp [hqp]
    · rw [Bool.or_eq_true]
      right
      rw [decide_eq_true_eq]
      intro hone
      obtain ⟨r1, hr1, hneg⟩ := exists_corner_cross_neg c p q h1 h2 h3 h4 hqp
      obtain ⟨r2, hr2, hpos⟩ := exists_corner_cross_pos c p q h1 h2 h3 h4 hqp
      unfold oneSide at hone
      rw [Bool.or_eq_true] at hone
      rcases hone with hall | hall
      · rw [List.all_eq_true] at hall
        exact absurd (of_decide_eq_true (hall r1 (hsub _ hr1))) (not_le.mpr hneg)
      · rw [List.all_eq_true] at hall
        exact absurd (of_decide_eq_true (hall r2 (hsub _ hr2))) (not_le.mpr hpos)


/-- Two arrangements of the same rows that are both sorted by descending
homepass coincide when no two rows share a count. -/
lemma sorted_desc_unique :
    ∀ (l1 l2 : List Cell), l1.Perm l2 →
    List.Sorted (fun a b : Cell => b.homepass ≤ a.homepass) l1 →
    List.Sorted (fun a b : Cell => b.homepass ≤ a.homepass) l2 →
    (∀ a ∈ l1, ∀ b ∈ l1, a.homepass = b.homepass → a = b) →
    l1 = l2 := by
  intro l1
  induction l1 with
  | nil =>
    intro l2 hperm _ _ _
    exact (hperm.symm.eq_nil).symm
  | cons a t1 ih =>
    intro l2 hperm hs1 hs2 hinj
    cases l2 with
    | nil => exact absurd hperm.eq_nil (by simp)
    | cons b t2 =>
      have hab : a = b := by
        have hamem : a ∈ b :: t2 := hperm.mem_iff.mp (List.mem_cons_self a t1)
        rcases List.mem_cons.mp hamem with h | h
        · exact h
        · have hble : a.homepass ≤ b.homepass := (List.sorted_cons.mp hs2).1 a h
          have hbmem : b ∈ a :: t1 := hperm.mem_iff.mpr (List.mem_cons_self b t2)
          rcases List.mem_cons.mp hbmem with h2 | h2
          · exact h2.symm
          · have hale : b.homepass ≤ a.homepass := (List.sorted_cons.mp hs1).1 b h2
            exact hinj a (List.mem_cons_self _ _) b hbmem (le_antisymm hble hale)
      subst hab
      have ht : t1.Perm t2 := hperm.cons_inv
      have heq := ih t2 ht (List.sorted_cons.mp hs1).2 (List.sorted_cons.mp hs2).2
        (fun x hx y hy hxy =>
          hinj x (List.mem_cons_of_mem _ hx) y (List.mem_cons_of_mem _ hy) hxy)
      rw [heq]

/-- With pairwise distinct counts the descending-count seed order is unique. -/
lemma seedOrder_unique (grid : List Cell)
    (hinj : ∀ a ∈ grid, ∀ b ∈ grid, a.homepass = b.homepass → a = b)
    {o1 o2 : List ℕ} (h1 : IsSeedOrder grid o1) (h2 : IsSeedOrder grid o2) :
    o1 = o2 := by
  obtain ⟨l1, hp1, hs1, ho1⟩ := h1
  obtain ⟨l2, hp2, hs2, ho2⟩ := h2
  have heq : l1 = l2 :=
    sorted_desc_unique l1 l2 (hp1.trans hp2.symm) hs1 hs2
      (fun x hx y hy hxy => hinj x (hp1.subset hx) y (hp1.subset hy) hxy)
  rw [ho1, ho2, heq]

/-- The order the app computes on line 69 is one of the orders compatible
with its sort key. -/
lemma sortedIndices_isSeedOrder (grid : List Cell) :
    IsSeedOrder grid (sortedIndices grid) := by
  refine ⟨grid.mergeSort (fun a b => b.homepass ≤ a.homepass),
    List.mergeSort_perm _ _, ?_, rfl⟩
  have hs := @List.sorted_mergeSort Cell
    (fun a b : Cell => decide (b.homepass ≤ a.homepass))
    (fun a b c hab hbc => by
      rw [decide_eq_true_eq] at hab hbc ⊢
      omega)
    (fun a b => by
      rcases Nat.le_total b.homepass a.homepass with h | h
      · simp [h]
      · simp [h])
    grid
  exact hs.imp (fun h => of_decide_eq_true h)

/-- C1, counterexample: on pts1 a single cell counts 17 homepasses; the run
finalizes a group whose recorded total is 17, exceeding the capacity 16, so
the claim that no produced group exceeds max_group_size is false as stated. -/
theorem c1_overCapacityGroup_cex :
    (appAreas pts1).map FatArea.homepass = [17] ∧
    ∃ fa ∈ appAreas pts1, ¬ fa.homepass ≤ 16 := by
  with_unfolding_all decide

/-- C1 (amended): provided no single cell counts more than 16 homepasses,
every finalized group of the partitioner has a total of at most 16, for any
seed order; merges and rescues never push a total that is at or below 16 over
16, so only an over-capacity seed cell can break the bound. -/
theorem c1_capacity_of_cellBound (grid : List Cell) (order : List ℕ)
    (hall : ∀ c ∈ grid, c.homepass ≤ 16) :
    ∀ fa ∈ fatAreasWithOrder grid order, fa.homepass ≤ 16 :=
  foldl_processSeed_inv grid (bfsFuel grid) (fun fa => fa.homepass ≤ 16)
    (processSeed_hp_le grid hall (bfsFuel grid)) order ([], [], 1) (by simp)

/-- C1 witness: the capacity bound instantiated on the concrete table gridC6. -/
theorem c1_capacity_of_cellBound_witness :
    (∀ c ∈ gridC6, c.homepass ≤ 16) ∧
    ∀ fa ∈ fatAreasWithOrder gridC6 [0, 1], fa.homepass ≤ 16 :=
  ⟨by decide, c1_capacity_of_cellBound gridC6 [0, 1] (by decide)⟩

/-- C7: a finalized area is colored green exactly when its recorded total
reached the capacity 16 (count >= capacity), and red below it, whatever the
seed order. -/
theorem c7_green_iff_ge16 (grid : List Cell) (order : List ℕ) :
    ∀ fa ∈ fatAreasWithOrder grid order, (fa.green = true ↔ 16 ≤ fa.homepass) :=
  foldl_processSeed_inv grid (bfsFuel grid)
    (fun fa => fa.green = true ↔ 16 ≤ fa.homepass)
    (processSeed_green grid (bfsFuel grid)) order ([], [], 1) (by simp)

/-- C7 witness: the color criterion instantiated on the below-capacity area
gridC6 produces. -/
theorem c7_green_iff_ge16_witness :
    (FatArea.mk [⟨0, 0, 0, 0, 0, 5⟩, ⟨1, 237 / 5, 0, 0, 3, 5⟩] 10 1 false).green = true ↔
      16 ≤ (FatArea.mk [⟨0, 0, 0, 0, 0, 5⟩, ⟨1, 237 / 5, 0, 0, 3, 5⟩] 10 1 false).homepass :=
  c7_green_iff_ge16 gridC6 [0, 1] _ (by with_unfolding_all decide)

/-- C10: the total recorded on every finalized area is the sum of the counts
of the cells merged into it; the exported member list is computed
independently as the input points strictly within the area's hull; and on
pts10 the two quantities differ (the second area records 16 but exports 17
points, one of which lies in the hull overlap of another area). -/
theorem c10_homepass_vs_members :
    (∀ (grid : List Cell) (order : List ℕ),
      ∀ fa ∈ fatAreasWithOrder grid order, fa.homepass = sumHp fa.cells) ∧
    (∀ (grid : List Cell) (pts : List Pt),
      (create_optimized_fat_areas grid pts).2 =
        ((create_optimized_fat_areas grid pts).1).map (membersOf pts)) ∧
    (appAreas pts10).map FatArea.homepass = [16, 16] ∧
    (appGroups pts10).map List.length = [16, 17] ∧
    ∃ fa ∈ appAreas pts10, ¬ (membersOf pts10 fa).length = fa.homepass := by
  refine ⟨?_, ?_, ?_, ?_, ?_⟩
  · intro grid order
    exact foldl_processSeed_inv grid (bfsFuel grid)
      (fun fa => fa.homepass = sumHp fa.cells)
      (processSeed_hp_sum grid (bfsFuel grid)) order ([], [], 1) (by simp)
  · intro grid pts
    rfl
  · with_unfolding_all decide
  · with_unfolding_all decide
  · with_unfolding_all decide

/-- C10 witness: the recorded total of the area gridC6 produces equals the
sum of its merged cells' counts. -/
theorem c10_homepass_vs_members_witness :
    (FatArea.mk [⟨0, 0, 0, 0, 0, 5⟩, ⟨1, 237 / 5, 0, 0, 3, 5⟩] 10 1 false).homepass =
      sumHp (FatArea.mk [⟨0, 0, 0, 0, 0, 5⟩, ⟨1, 237 / 5, 0, 0, 3, 5⟩] 10 1 false).cells :=
  c10_homepass_vs_members.1 gridC6 [0, 1] _ (by with_unfolding_all decide)

/-- C2, counterexample: on pts2 the run succeeds, yet the extent-corner input
point (0,0) lies on the boundary of the only hull and so appears in no
exported group — the union of the groups omits an input point. -/
theorem c2_pointOmitted_cex :
    (⟨0, 0⟩ : Pt) ∈ pts2 ∧
    producedOutput pts2 = true ∧
    ∀ g ∈ appGroups pts2, (⟨0, 0⟩ : Pt) ∉ g := by
  with_unfolding_all decide

/-- C2 (amended): the exported groups are exactly the per-area filters of the
input by strict hull containment — so a point appears in as many groups as
have it strictly inside their hull, possibly zero or several — and every
point strictly inside one of an area's merged cells does appear in that
area's group. -/
theorem c2_members_are_hull_filter (pts : List Pt)
    (r : List FatArea × List (List Pt)) (h : appRun pts = Except.ok r) :
    r.2 = r.1.map (membersOf pts) ∧
    ∀ fa ∈ r.1, ∀ p ∈ pts, (∃ c ∈ fa.cells, cellContains c p = true) →
      p ∈ membersOf pts fa := by
  constructor
  · unfold appRun at h
    by_cases h1 : pts.isEmpty
    · rw [if_pos h1] at h
      cases h
    · rw [if_neg h1] at h
      by_cases h2 : (gridWithHp pts).isEmpty
      · rw [if_pos h2] at h
        cases h
      · rw [if_neg h2] at h
        injection h with h
        rw [← h]
        rfl
  · intro fa _ p hp hex
    obtain ⟨c, hc, hcont⟩ := hex
    unfold membersOf
    rw [List.mem_filter]
    exact ⟨hp, withinHull_of_contains hc hcont⟩

/-- C2 witness: the amended statement instantiated on the run over pts2. -/
theorem c2_members_are_hull_filter_witness :
    appGroups pts2 = (appAreas pts2).map (membersOf pts2) ∧
    ∀ fa ∈ appAreas pts2, ∀ p ∈ pts2,
      (∃ c ∈ fa.cells, cellContains c p = true) → p ∈ membersOf pts2 fa :=
  c2_members_are_hull_filter pts2 (appAreas pts2, appGroups pts2)
    (by with_unfolding_all rfl)

/-- C3, counterexample: on pts3 the cell containing the point (20,20) carries
the stored labels row = col = 2, while floor((20 - min)/s) = 1 on both axes,
so the claimed label formula is false as stated. -/
theorem c3_rowLabel_cex :
    ((create_aligned_grids pts3).filter (fun c => cellContains c ⟨20, 20⟩)).map
        (fun c => (c.row, c.col)) = [(2, 2)] ∧
    ⌊((20 : ℚ) - minLY pts3) / gridSize⌋ = 1 ∧
    ⌊((20 : ℚ) - minLX pts3) / gridSize⌋ = 1 ∧
    ∃ c ∈ create_aligned_grids pts3, cellContains c ⟨20, 20⟩ = true ∧
      ¬ (c.row = ⌊((20 : ℚ) - minLY pts3) / gridSize⌋ ∧
         c.col = ⌊((20 : ℚ) - minLX pts3) / gridSize⌋) := by
  with_unfolding_all decide

/-- C3 (amended): the cell strictly containing a point is the tile with
j = floor((y - min_y)/s) and i = floor((x - min_x)/s), and its stored labels
are int(round(centroid / s)) with round-half-to-even — a pure function of the
point position, the extent minima and the cell size, but not the floor
formula itself. -/
theorem c3_rowcol_of_contains (pts : List Pt) (c : Cell) (p : Pt)
    (hc : c ∈ create_aligned_grids pts) (hcont : cellContains c p = true) :
    c.row = pyRound ((minLY pts +
      ((⌊(p.y - minLY pts) / gridSize⌋ : ℚ) + 1 / 2) * gridSize) / gridSize) ∧
    c.col = pyRound ((minLX pts +
      ((⌊(p.x - minLX pts) / gridSize⌋ : ℚ) + 1 / 2) * gridSize) / gridSize) := by
  obtain ⟨i, j, _, _, hcm⟩ := mem_create_aligned hc
  subst hcm
  rw [cellContains, decide_eq_true_eq] at hcont
  have hx0 : (mkCell pts i j).x0 = minLX pts + (i : ℚ) * gridSize := rfl
  have hy0 : (mkCell pts i j).y0 = minLY pts + (j : ℚ) * gridSize := rfl
  rw [hx0, hy0] at hcont
  obtain ⟨hx1, hx2, hy1, hy2⟩ := hcont
  have hfy : ⌊(p.y - minLY pts) / gridSize⌋ = (j : ℤ) :=
    floor_of_inside gridSize_pos hy1 (by linarith)
  have hfx : ⌊(p.x - minLX pts) / gridSize⌋ = (i : ℤ) :=
    floor_of_inside gridSize_pos hx1 (by linarith)
  constructor
  · show pyRound ((minLY pts + (j : ℚ) * gridSize + gridSize / 2) / gridSize) = _
    rw [hfy]
    congr 1
    push_cast
    ring
  · show pyRound ((minLX pts + (i : ℚ) * gridSize + gridSize / 2) / gridSize) = _
    rw [hfx]
    congr 1
    push_cast
    ring

/-- C3 witness: the amended label formula instantiated on the cell of pts3
containing (20,20). -/
theorem c3_rowcol_of_contains_witness :
    (mkCell pts3 1 1).row = pyRound ((minLY pts3 +
      ((⌊(((⟨20, 20⟩ : Pt)).y - minLY pts3) / gridSize⌋ : ℚ) + 1 / 2) * gridSize) / gridSize) ∧
    (mkCell pts3 1 1).col = pyRound ((minLX pts3 +
      ((⌊(((⟨20, 20⟩ : Pt)).x - minLX pts3) / gridSize⌋ : ℚ) + 1 / 2) * gridSize) / gridSize) :=
  c3_rowcol_of_contains pts3 (mkCell pts3 1 1) ⟨20, 20⟩
    (by with_unfolding_all decide) (by with_unfolding_all decide)

/-- C8, code evaluated at the failing input: the empty input does stop with
the no-points error, but on pts8 — where no cell strictly contains any input
point — the run does not stop: the left-join count gives every cell at least
1, grid_with_hp is non-empty, and a group with homepass 1 is produced. -/
theorem c8_no_error_without_contained_points :
    appRun ([] : List Pt) = Except.error AppError.noValidPoints ∧
    (∀ p ∈ pts8, ∀ c ∈ gridWithHp pts8, cellContains c p = false) ∧
    ¬ gridWithHp pts8 = [] ∧
    producedOutput pts8 = true ∧
    (appAreas pts8).map FatArea.homepass = [1] := by
  refine ⟨rfl, ?_⟩
  with_unfolding_all decide

/-- C9: the input point (15.8, 5) of pts9 lies on the shared vertical edge of
two grid cells, is strictly contained in no cell, and removing it from the
input leaves every cell's homepass count (indeed the whole counted grid)
unchanged. -/
theorem c9_edge_point_uncounted :
    edgePt ∈ pts9 ∧
    (∃ c1 ∈ gridWithHp pts9, ∃ c2 ∈ gridWithHp pts9,
      c1.x0 + gridSize = edgePt.x ∧ c2.x0 = edgePt.x ∧ c1.y0 = c2.y0 ∧
      c1.y0 < edgePt.y ∧ edgePt.y < c1.y0 + gridSize) ∧
    (∀ c ∈ gridWithHp pts9, cellContains c edgePt = false) ∧
    gridWithHp pts9 = gridWithHp pts9r := by
  with_unfolding_all decide

/-- C4, counterexample: gridC4 has three cells with equal counts, so both
[0,1,2] and [2,1,0] are orders compatible with the code's descending-count
sort key (which fixes no secondary key), yet they produce different group
memberships — the claimed deterministic row/column tie-break does not exist
in the code, and the tie order matters. -/
theorem c4_tieOrder_cex :
    IsSeedOrder gridC4 [0, 1, 2] ∧ IsSeedOrder gridC4 [2, 1, 0] ∧
    ¬ fatAreasWithOrder gridC4 [0, 1, 2] = fatAreasWithOrder gridC4 [2, 1, 0] := by
  refine ⟨⟨gridC4, List.Perm.refl _, by decide, by decide⟩,
    ⟨gridC4.reverse, List.reverse_perm _, by decide, by decide⟩, ?_⟩
  with_unfolding_all decide

/-- C4 (amended): when all cell counts are pairwise distinct, the
descending-count key determines the seed order uniquely, so every order
compatible with the code's sort key equals the order the code computes and
yields the identical grouping; with ties, the order — and hence possibly the
grouping — is left open by the sort key. -/
theorem c4_unique_under_distinct_counts (grid : List Cell) (o : List ℕ)
    (hinj : ∀ a ∈ grid, ∀ b ∈ grid, a.homepass = b.homepass → a = b)
    (ho : IsSeedOrder grid o) :
    o = sortedIndices grid ∧
    fatAreasWithOrder grid o = fatAreasWithOrder grid (sortedIndices grid) := by
  have he := seedOrder_unique grid hinj ho (sortedIndices_isSeedOrder grid)
  exact ⟨he, by rw [he]⟩

/-- C4 witness: the uniqueness statement instantiated on the two-cell table
gridW4 with distinct counts. -/
theorem c4_unique_under_distinct_counts_witness :
    (∀ a ∈ gridW4, ∀ b ∈ gridW4, a.homepass = b.homepass → a = b) ∧
    ([0, 1] = sortedIndices gridW4 ∧
     fatAreasWithOrder gridW4 [0, 1] = fatAreasWithOrder gridW4 (sortedIndices gridW4)) :=
  ⟨by with_unfolding_all decide,
    c4_unique_under_distinct_counts gridW4 [0, 1] (by with_unfolding_all decide)
    ⟨gridW4, List.Perm.refl _, by decide, by decide⟩⟩

/-- C5: started the way processSeed starts it — FIFO queue seeded with the
seed cell's adjacency list, seed visited and counted — the breadth-first
merge loop extends the group only by cells that at their addition time are
table rows with positive count, unvisited, 4-connected to an already merged
cell of the group, and whose count keeps the running total at or below 16
(GoodExt states exactly these four conditions per added cell). -/
theorem c5_bfs_merge_conditions (grid : List Cell) (fuel : ℕ)
    (vis : List ℕ) (idx : ℕ) (c : Cell)
    (hn : (grid.map Cell.idx).Nodup) :
    ∃ extra,
      (bfsLoop grid fuel (find_adjacent_grids grid c (idx :: vis))
        (idx :: vis) [c] c.homepass).1 = [c] ++ extra ∧
      GoodExt grid (idx :: vis) [c] c.homepass extra := by
  apply bfsLoop_goodExt grid hn fuel
  intro q hq
  obtain ⟨c2, hc2, hc2i, hc2pos, _, hadj⟩ := find_adjacent_spec hq
  exact ⟨c2, hc2, hc2i, hc2pos, c, List.mem_singleton_self c, hadj⟩

/-- C5 witness: the merge-condition statement instantiated on the two-cell
table gridW5, whose loop adds the adjacent cell of count 5 to the seed of
count 6. -/
theorem c5_bfs_merge_conditions_witness :
    (gridW5.map Cell.idx).Nodup ∧
    ∃ extra,
      (bfsLoop gridW5 4 (find_adjacent_grids gridW5 ⟨0, 0, 0, 0, 0, 6⟩ [0])
        [0] [⟨0, 0, 0, 0, 0, 6⟩] 6).1 = [⟨0, 0, 0, 0, 0, 6⟩] ++ extra ∧
      GoodExt gridW5 [0] [⟨0, 0, 0, 0, 0, 6⟩] 6 extra :=
  ⟨by decide, c5_bfs_merge_conditions gridW5 4 [] 0 ⟨0, 0, 0, 0, 0, 6⟩ (by decide)⟩


/-- C6: whenever the breadth-first merge ends with an empty queue and a total
still below 16 (the code's rescue trigger), the finalized group equals the
merge result extended by the rescue pass: every rescued cell is a table row
within 3 cell-widths (Euclidean centroid distance, the hard-coded 3*15.8) of
the seed centroid, unvisited and non-empty, and every such row whose count
still fits under the final total has been added. -/
theorem c6_rescue_spec (grid : List Cell) (fuel : ℕ)
    (st : List FatArea × List ℕ × ℕ) (idx : ℕ) (c : Cell)
    (fat1 : List Cell) (hp1 : ℕ) (vis1 : List ℕ)
    (hget : getCell grid idx = some c)
    (hskip : st.2.1.contains idx = false) (hpos : ¬ c.homepass = 0)
    (hbfs : bfsLoop grid fuel (find_adjacent_grids grid c (idx :: st.2.1))
      (idx :: st.2.1) [c] c.homepass = (fat1, hp1, vis1, []))
    (hlow : hp1 < 16) :
    ∃ extr,
      processSeed grid fuel st idx =
        (st.1 ++ [FatArea.mk (fat1 ++ extr) (hp1 + sumHp extr) st.2.2
            (decide (16 ≤ hp1 + sumHp extr))],
         (rescueStep grid (centroidOf c) vis1 fat1 hp1).2.2, st.2.2 + 1) ∧
      (∀ cc ∈ extr, cc ∈ grid ∧
        distLe (centroidOf cc) (centroidOf c) (3 * (79 / 5)) = true ∧
        vis1.contains cc.idx = false ∧ 0 < cc.homepass) ∧
      (∀ cc ∈ grid, distLe (centroidOf cc) (centroidOf c) (3 * (79 / 5)) = true →
        vis1.contains cc.idx = false → 0 < cc.homepass →
        hp1 + sumHp extr + cc.homepass ≤ 16 → cc ∈ fat1 ++ extr) := by
  obtain ⟨extr, h1, h2, h3, _, _, h6⟩ :=
    rescueStep_spec grid (centroidOf c) vis1 fat1 hp1
  refine ⟨extr, ?_, h3, ?_⟩
  · simp only [processSeed, hget]
    rw [if_neg (by
      simp only [not_or]
      refine ⟨?_, hpos⟩
      simpa using hskip)]
    rw [hbfs]
    rw [if_pos ⟨hlow, rfl⟩]
    rw [h1, h2]
  · intro cc hcc hdist hvis hcp hfit
    rw [← h1]
    refine h6 cc hcc hdist hvis hcp ?_
    rw [h2]
    exact hfit

/-- C6 witness: the rescue statement instantiated on gridC6, where the seed
has no adjacent cell and the rescue merges the cell three cell-widths away. -/
theorem c6_rescue_spec_witness :
    (bfsLoop gridC6 13 (find_adjacent_grids gridC6 ⟨0, 0, 0, 0, 0, 5⟩ [0])
      [0] [⟨0, 0, 0, 0, 0, 5⟩] 5 = ([⟨0, 0, 0, 0, 0, 5⟩], 5, [0], [])) ∧
    ∃ extr,
      processSeed gridC6 13 ([], [], 1) 0 =
        ([FatArea.mk ([⟨0, 0, 0, 0, 0, 5⟩] ++ extr) (5 + sumHp extr) 1
            (decide (16 ≤ 5 + sumHp extr))],
         (rescueStep gridC6 (centroidOf ⟨0, 0, 0, 0, 0, 5⟩)
           [0] [⟨0, 0, 0, 0, 0, 5⟩] 5).2.2, 2) ∧
      (∀ cc ∈ extr, cc ∈ gridC6 ∧
        distLe (centroidOf cc) (centroidOf ⟨0, 0, 0, 0, 0, 5⟩) (3 * (79 / 5)) = true ∧
        ([0] : List ℕ).contains cc.idx = false ∧ 0 < cc.homepass) ∧
      (∀ cc ∈ gridC6,
        distLe (centroidOf cc) (centroidOf ⟨0, 0, 0, 0, 0, 5⟩) (3 * (79 / 5)) = true →
        ([0] : List ℕ).contains cc.idx = false → 0 < cc.homepass →
        5 + sumHp extr + cc.homepass ≤ 16 → cc ∈ [⟨0, 0, 0, 0, 0, 5⟩] ++ extr) :=
  ⟨by with_unfolding_all decide,
   c6_rescue_spec gridC6 13 ([], [], 1) 0 ⟨0, 0, 0, 0, 0, 5⟩ [⟨0, 0, 0, 0, 0, 5⟩] 5 [0]
     (by with_unfolding_all decide) (by decide) (by decide)
     (by with_unfolding_all decide) (by decide)⟩
